import Mathlib

/-!
Verification of the scheduling and retrieval core of the admissions-office
assistant in `src/main.py`, shallowly embedded in Lean 4.

Modeling conventions:

* Python strings are Lean `String`s; the character-level operations
  (`str.lower`, `str.strip`, `str.split`, the regexes of `normalize`,
  substring search) are written out on `List Char` (`String.data`) so that
  everything is executable and kernel-reducible.  `pyLowerChar` tabulates
  `str.lower` on the alphabets the program manipulates (ASCII, Russian
  Cyrillic, and the Kazakh letters listed in `normalize`).
* Times of day are minutes since midnight (`Nat`); `fmtHM` renders them as
  the zero-padded `"HH:MM"` strings the program stores, and the final slot
  filter compares those strings with code-point lexicographic order exactly
  as Python's `s <= t` does (`strLeB`).
* The SQLite `bookings` table is a `List Booking`; the `UNIQUE(date, time)`
  constraint makes `INSERT` a conditional append (`create_booking`),
  mirroring the `sqlite3.IntegrityError` branch of the source.
* Python floats are exact rationals here: every score the program computes
  is `w * inter + sim` with `inter : ℕ` and `sim` a
  `difflib.SequenceMatcher(..).ratio()` value.  `difflib` is a Python
  standard-library collaborator, not code of this repository, so the
  similarity ratio is an explicit parameter `ratio : String → String → ℚ`
  of the retrieval functions (difflib guarantees `0 ≤ ratio ≤ 1`).
* Python's `list.sort(key=.., reverse=True)` is a stable sort; it is
  modeled by Mathlib's stable `List.insertionSort` with the reversed
  comparison, which produces the same list as any stable sort.
-/

namespace CCU

/-- Whitespace for Python's `str` semantics (`\s`, `str.strip`,
`str.split`): the six ASCII whitespace characters.  (Non-ASCII Unicode
whitespace is not modeled; none occurs in the program's data.) -/
def pyIsWs (c : Char) : Bool :=
  c = ' ' || c = '\t' || c = '\n' || c = '\r' || c = '\x0b' || c = '\x0c'

/-- The upper/lower case pairs of `str.lower` on the alphabets this program
uses: ASCII `A`–`Z`, Russian Cyrillic `А`–`Я` and `Ё`, and the Kazakh
letters that appear in `normalize`'s whitelist. -/
def lowerPairs : List (Char × Char) :=
  [('A','a'),('B','b'),('C','c'),('D','d'),('E','e'),('F','f'),('G','g'),
   ('H','h'),('I','i'),('J','j'),('K','k'),('L','l'),('M','m'),('N','n'),
   ('O','o'),('P','p'),('Q','q'),('R','r'),('S','s'),('T','t'),('U','u'),
   ('V','v'),('W','w'),('X','x'),('Y','y'),('Z','z'),
   ('А','а'),('Б','б'),('В','в'),('Г','г'),('Д','д'),('Е','е'),('Ж','ж'),
   ('З','з'),('И','и'),('Й','й'),('К','к'),('Л','л'),('М','м'),('Н','н'),
   ('О','о'),('П','п'),('Р','р'),('С','с'),('Т','т'),('У','у'),('Ф','ф'),
   ('Х','х'),('Ц','ц'),('Ч','ч'),('Ш','ш'),('Щ','щ'),('Ъ','ъ'),('Ы','ы'),
   ('Ь','ь'),('Э','э'),('Ю','ю'),('Я','я'),('Ё','ё'),
   ('Ә','ә'),('Ғ','ғ'),('Қ','қ'),('Ң','ң'),('Ө','ө'),('Ұ','ұ'),('Ү','ү'),
   ('Һ','һ'),('І','і')]

/-- `str.lower` on one character (tabulated). -/
def pyLowerChar (c : Char) : Char :=
  match lowerPairs.find? (fun p => p.1 == c) with
  | some p => p.2
  | none => c

/-- `str.lower` on a string. -/
def pyLower (s : String) : String :=
  String.mk (s.data.map pyLowerChar)

/-- Drop trailing whitespace (structural helper for `str.strip`). -/
def dropTrailWs : List Char → List Char
  | [] => []
  | c :: rest =>
    let r := dropTrailWs rest
    if r = [] && pyIsWs c then [] else c :: r

/-- Python `str.strip()`: remove leading and trailing whitespace. -/
def pyStrip (s : String) : String :=
  String.mk (dropTrailWs (s.data.dropWhile pyIsWs))

/-- Helper for `str.split()`: split on whitespace runs, accumulating the
current (reversed) token. -/
def splitWsAux : List Char → List Char → List String
  | [], acc => if acc = [] then [] else [String.mk acc.reverse]
  | c :: rest, acc =>
    if pyIsWs c then
      if acc = [] then splitWsAux rest []
      else String.mk acc.reverse :: splitWsAux rest []
    else splitWsAux rest (c :: acc)

/-- Python `str.split()` with no argument: the whitespace-separated tokens,
empty tokens dropped. -/
def pyTokens (s : String) : List String :=
  splitWsAux s.data []

/-- `|set(a.split()) & set(b.split())|`: the number of distinct tokens of
`a` that are also tokens of `b`. -/
def interCount (a b : String) : Nat :=
  ((pyTokens a).dedup.filter (fun t => t ∈ pyTokens b)).length

/-- The character class of `normalize`'s whitelist regex
`[^a-zа-я0-9ӘәҒғҚқҢңӨөҰұҮүҺһІі\s]` with `re.IGNORECASE`: characters NOT
matched by it (i.e. kept).  `IGNORECASE` additionally lets the uppercase
ASCII and Cyrillic ranges match the class. -/
def allowedChar (c : Char) : Bool :=
  ('a' ≤ c && c ≤ 'z') || ('A' ≤ c && c ≤ 'Z') ||
  ('а' ≤ c && c ≤ 'я') || ('А' ≤ c && c ≤ 'Я') ||
  ('0' ≤ c && c ≤ '9') ||
  c ∈ ['Ә','ә','Ғ','ғ','Қ','қ','Ң','ң','Ө','ө','Ұ','ұ','Ү','ү','Һ','һ','І','і'] ||
  pyIsWs c

/-- `re.sub(r"ё", "е", s)` on one character. -/
def foldYo (c : Char) : Char :=
  if c = 'ё' then 'е' else c

/-- One character of the whitelist substitution: characters outside the
class are replaced by a space. -/
def whitelist (c : Char) : Char :=
  if allowedChar c then c else ' '

/-- `re.sub(r"\s+", " ", ·)`: collapse every whitespace run to one space.
The flag records whether we are inside a run that already emitted its
space. -/
def collapseWsAux : List Char → Bool → List Char
  | [], _ => []
  | c :: rest, inRun =>
    if pyIsWs c then
      if inRun then collapseWsAux rest true
      else ' ' :: collapseWsAux rest true
    else c :: collapseWsAux rest false

/-- `normalize` from `src/main.py`:
lowercase, fold `ё` to `е`, replace non-whitelisted characters by spaces,
collapse whitespace runs, strip. -/
def normalize (s : String) : String :=
  let l1 := s.data.map pyLowerChar
  let l2 := l1.map foldYo
  let l3 := l2.map whitelist
  let l4 := collapseWsAux l3 false
  String.mk (dropTrailWs (l4.dropWhile pyIsWs))

/-- Is `needle` a contiguous substring of `hay`?  (`re.search` of a literal
pattern.) -/
def containsSubAux : List Char → List Char → Bool
  | _, [] => true
  | [], _ :: _ => false
  | c :: hay, needle => needle.isPrefixOf (c :: hay) || containsSubAux hay needle

/-- `re.search(lit, s)` for a literal (or literal-alternation branch)
pattern: substring containment. -/
def containsSub (s lit : String) : Bool :=
  if lit.data = [] then true else containsSubAux s.data lit.data

/-! ### Slot calendar (`time_slots_for_date`) -/

/-- Booking-window configuration of the source, in minutes since
midnight: `DAY_START = time(10, 0)`, `DAY_END = time(18, 0)`,
`LUNCH_START = time(13, 0)`, `LUNCH_END = time(14, 0)`,
`SLOT_STEP_MIN = 30`. -/
def DAY_START : Nat := 10 * 60

def DAY_END : Nat := 18 * 60

def LUNCH_START : Nat := 13 * 60

def LUNCH_END : Nat := 14 * 60

def SLOT_STEP_MIN : Nat := 30

/-- One decimal digit as a character. -/
def digitChar (n : Nat) : Char :=
  Char.ofNat (48 + n)

/-- `time.strftime("%H:%M")`: zero-padded rendering of a minutes-since-
midnight value. -/
def fmtHM (m : Nat) : String :=
  String.mk [digitChar (m / 60 / 10), digitChar (m / 60 % 10), ':',
             digitChar (m % 60 / 10), digitChar (m % 60 % 10)]

/-- Python's string `<=`: code-point lexicographic order on the character
lists. -/
def charListLe : List Char → List Char → Bool
  | [], _ => true
  | _ :: _, [] => false
  | a :: as, b :: bs =>
    if a < b then true
    else if b < a then false
    else charListLe as bs

/-- Python's `s <= t` on strings. -/
def strLeB (s t : String) : Bool :=
  charListLe s.data t.data

/-- The `while cur <= end_dt` loop of `time_slots_for_date`: starting at
`cur`, step `SLOT_STEP_MIN` minutes, append the formatted time unless its
start lies in `[LUNCH_START, LUNCH_END)`. -/
def slotsLoop (cur endT : Nat) : List String :=
  if cur ≤ endT then
    (if LUNCH_START ≤ cur ∧ cur < LUNCH_END then [] else [fmtHM cur]) ++
      slotsLoop (cur + SLOT_STEP_MIN) endT
  else []
termination_by endT + 1 - cur
decreasing_by simp [SLOT_STEP_MIN]; omega

/-- `time_slots_for_date` from `src/main.py`.  The result depends only on
the fixed configuration, not on the date argument (the date only feeds the
`datetime.combine` calls); the final comprehension keeps slots with
`s <= DAY_END.strftime("%H:%M")` under Python string comparison. -/
def time_slots_for_date (_dateStr : String) : List String :=
  (slotsLoop DAY_START DAY_END).filter (fun s => strLeB s (fmtHM DAY_END))

/-- The full slot list the program actually generates, `10:00` … `12:30`,
`14:00` … `17:30`, and the closing-time slot `18:00`. -/
def generatedSlots : List String :=
  ["10:00", "10:30", "11:00", "11:30", "12:00", "12:30",
   "14:00", "14:30", "15:00", "15:30", "16:00", "16:30",
   "17:00", "17:30", "18:00"]

/-- The slot list claimed by the specification: `10:00` … `17:30` with
lunch excluded and nothing at or after the `18:00` close. -/
def specSlots : List String :=
  ["10:00", "10:30", "11:00", "11:30", "12:00", "12:30",
   "14:00", "14:30", "15:00", "15:30", "16:00", "16:30",
   "17:00", "17:30"]

theorem slotsLoop_eval : slotsLoop DAY_START DAY_END = generatedSlots := by
  rw [show DAY_START = 600 from rfl, show DAY_END = 1080 from rfl]
  rw [slotsLoop]; norm_num [SLOT_STEP_MIN, LUNCH_START, LUNCH_END]
  rw [slotsLoop]; rw [slotsLoop]; rw [slotsLoop]; rw [slotsLoop]; rw [slotsLoop]
  rw [slotsLoop]; rw [slotsLoop]; rw [slotsLoop]; rw [slotsLoop]; rw [slotsLoop]
  rw [slotsLoop]; rw [slotsLoop]; rw [slotsLoop]; rw [slotsLoop]; rw [slotsLoop]
  rw [slotsLoop]; rw [slotsLoop]
  rfl

theorem time_slots_eval (d : String) : time_slots_for_date d = generatedSlots := by
  rw [time_slots_for_date, slotsLoop_eval]
  decide

/-! ### Booking store (`bookings` table) -/

/-- One row of the `bookings` table created by `init_db`:
`user_id, full_name, phone, date, time, topic, status DEFAULT 'confirmed',
created_at`, with the schema constraint `UNIQUE(date, time)`. -/
structure Booking where
  user_id : Nat
  full_name : String
  phone : String
  date : String
  time : String
  topic : String
  status : String
  created_at : Nat
deriving DecidableEq, Repr

/-- The success message of `create_booking`. -/
def confirmedMsg : String := "Ваша запись подтверждена ✅"

/-- The conflict message of `create_booking`. -/
def conflictMsg : String := "Этот слот уже занят. Выберите другое время."

/-- `create_booking` from `src/main.py`.  The `INSERT` violates the
storage-level `UNIQUE(date, time)` constraint exactly when the table
already holds a row with the same `(date, time)` (any status); the raised
`sqlite3.IntegrityError` is caught and `(False, conflict message)` is
returned with the table untouched.  Otherwise the row is inserted with the
`status` column default `'confirmed'`. -/
def create_booking (user_id : Nat) (full_name phone date_str time_str topic : String)
    (now : Nat) (store : List Booking) : (Bool × String) × List Booking :=
  if store.any (fun b => b.date == date_str && b.time == time_str) then
    ((false, conflictMsg), store)
  else
    ((true, confirmedMsg),
      store ++ [⟨user_id, full_name, phone, date_str, time_str, topic, "confirmed", now⟩])

/-- `available_slots` from `src/main.py`: the generated slots minus the
`time` values of rows with this `date` and `status = 'confirmed'`. -/
def available_slots (date_str : String) (store : List Booking) : List String :=
  (time_slots_for_date date_str).filter
    (fun s => !(store.any (fun b => b.date == date_str && b.status == "confirmed" && b.time == s)))

/-- `cancel_booking` from `src/main.py`:
`DELETE FROM bookings WHERE user_id=? AND date=? AND time=?`, returning
`cur.rowcount > 0`. -/
def cancel_booking (user_id : Nat) (date_str time_str : String) (store : List Booking) :
    Bool × List Booking :=
  let rest := store.filter
    (fun b => !(b.user_id == user_id && b.date == date_str && b.time == time_str))
  (decide (rest.length < store.length), rest)

/-- `cancel_booking_any` from `src/main.py` (admin variant, no owner
check). -/
def cancel_booking_any (date_str time_str : String) (store : List Booking) :
    Bool × List Booking :=
  let rest := store.filter (fun b => !(b.date == date_str && b.time == time_str))
  (decide (rest.length < store.length), rest)

/-! ### Booking state machine (`BookingFSM` handlers) -/

/-- The states of `BookingFSM`. -/
inductive BState
  | choosing_date
  | choosing_time
  | entering_name
  | entering_phone
  | entering_topic
  | confirm
deriving DecidableEq, Repr

/-- The per-user FSM data dictionary (`state.get_data()`), restricted to
the keys the booking flow writes.  `none` models an absent key. -/
structure Session where
  date : Option String := none
  time : Option String := none
  full_name : Option String := none
  phone : Option String := none
  topic : Option String := none
deriving DecidableEq, Repr

/-- `state.clear()` empties the data dictionary. -/
def emptySession : Session := {}

/-- A handler's outcome: the FSM state afterwards (`none` models a cleared
state) and the data afterwards. -/
abbrev FsmOut := Option BState × Session

/-- `fsm_enter_name` from `src/main.py`: strip the text, reject (staying
in `entering_name` with data untouched) when it has fewer than 5
characters, else store it as `full_name` and move to `entering_phone`.
(The two-token check `len(full_name.split()) < 2` exists only in the
onboarding handler `ob_enter_name`, not here.) -/
def fsm_enter_name (msg : String) (data : Session) : FsmOut :=
  let full_name := pyStrip msg
  if full_name.length < 5 then (some BState.entering_name, data)
  else (some BState.entering_phone, { data with full_name := some full_name })

/-- `re.sub(r"[^\d+]", "", s)`: keep only digits and `+`. -/
def pyPhoneClean (s : String) : String :=
  String.mk (s.data.filter (fun c => c.isDigit || c = '+'))

/-- `re.match(r"^\+?\d{10,15}$", s)`: an optional leading `+` followed by
10 to 15 digits, nothing else. -/
def phoneMatch (s : String) : Bool :=
  match s.data with
  | '+' :: ds => ds.all Char.isDigit && decide (10 ≤ ds.length) && decide (ds.length ≤ 15)
  | ds => ds.all Char.isDigit && decide (10 ≤ ds.length) && decide (ds.length ≤ 15)

/-- `fsm_enter_phone` from `src/main.py`. -/
def fsm_enter_phone (msg : String) (data : Session) : FsmOut :=
  let phone := pyPhoneClean msg
  if !phoneMatch phone then (some BState.entering_phone, data)
  else (some BState.entering_topic, { data with phone := some phone })

/-- `fsm_enter_topic` from `src/main.py`. -/
def fsm_enter_topic (msg : String) (data : Session) : FsmOut :=
  let topic := pyStrip msg
  if topic.length < 3 then (some BState.entering_topic, data)
  else (some BState.confirm, { data with topic := some topic })

/-- The affirmative answers accepted by `fsm_confirm`. -/
def yesWords : List String := ["да", "yes", "иә"]

/-- The negative answers accepted by `fsm_confirm`. -/
def noWords : List String := ["нет", "no", "жоқ"]

/-- `fsm_confirm` from `src/main.py`.  On an affirmative answer it calls
`create_booking` with the collected fields (present by the time `confirm`
is reached; Python indexes `data[..]` directly, modeled with `.getD ""`):
on success the state and data are cleared, on conflict only
`set_state(choosing_time)` runs — the data dictionary is not modified.
A negative answer clears state and data; anything else re-prompts. -/
def fsm_confirm (msg : String) (data : Session) (store : List Booking)
    (user_db_id now : Nat) : Option BState × Session × List Booking :=
  let ans := pyLower (pyStrip msg)
  if ans ∈ yesWords then
    let r := create_booking user_db_id (data.full_name.getD "") (data.phone.getD "")
      (data.date.getD "") (data.time.getD "") (data.topic.getD "") now store
    if r.1.1 then (none, emptySession, r.2)
    else (some BState.choosing_time, data, r.2)
  else if ans ∈ noWords then (none, emptySession, store)
  else (some BState.confirm, data, store)

/-! ### FAQ routing and scoring (`search_faq_answer`) -/

/-- The canned dormitory answer (`re.search(r"общежит", q)`). -/
def dormAnswer : String :=
  "Общежитие: условия, порядок заселения и стоимость — в разделе «🏨 Общежитие». Кратко: стоимость 36 000 ₸/мес; адрес — г. Алматы, Суюнбая 66–68; карта: https://go.2gis.com/z3c8o"

/-- The canned grants/discounts answer (`re.search(r"(скидк|грант)", q)`). -/
def grantsAnswer : String :=
  "Гранты и скидки: гранты по ОП (Гостиничный бизнес, Маркетинг, Менеджмент, Программное обеспечение, Туризм); скидки — индивидуально по Положению. Подробнее — раздел «🎓 Гранты и скидки» или /book."

/-- The canned price answer (`re.search(r"(стоим|цена|оплат)", q)`). -/
def priceAnswer : String :=
  "Стоимость обучения: 950 000 ₸ за учебный год."

/-- The canned open-house answer
(`re.search(r"(дод|день открытых двер|открытых дверей)", q)`). -/
def dodAnswer : String :=
  "Дни открытых дверей: график — https://ccu.edu.kz/den-otkrytyx-dverej/ Регистрация: https://docs.google.com/forms/d/e/1FAIpQLSfyB6uCrHzA0Dqr8ymlM-KKtAQ2cGNCCE_e7ROVIAeyOYXGig/viewform"

/-- The canned admission-deadlines answer
(`re.search(r"(сроки|прием|приём)", q)`). -/
def deadlinesAnswer : String :=
  "Сроки приёма документов: с 25 июня по 25 августа."

/-- The chain of early returns at the top of `search_faq_answer`: each
pattern is an alternation of literals, so `re.search` is substring
containment; the first matching pattern's answer is returned. -/
def hardRoute (q : String) : Option String :=
  if containsSub q "общежит" then some dormAnswer
  else if containsSub q "скидк" || containsSub q "грант" then some grantsAnswer
  else if containsSub q "стоим" || containsSub q "цена" || containsSub q "оплат" then
    some priceAnswer
  else if containsSub q "дод" || containsSub q "день открытых двер" ||
      containsSub q "открытых дверей" then some dodAnswer
  else if containsSub q "сроки" || containsSub q "прием" || containsSub q "приём" then
    some deadlinesAnswer
  else none

/-- The score `inter * 2.0 + sim` that `search_faq_answer` assigns to one
FAQ row, for a normalized query `q`: `base = normalize(tags)`,
`inter = |set(q.split()) & set(base.split())|`,
`sim = ratio(q, base)`. -/
def faqScore (ratio : String → String → ℚ) (q tags : String) : ℚ :=
  let base := normalize tags
  (interCount q base : ℚ) * 2 + ratio q base

/-- The scoring loop of `search_faq_answer` over the `faq` rows
`(answer, tags)`, carrying `(best_answer, best_score)` and updating on
`score > best_score`. -/
def faqLoop (ratio : String → String → ℚ) (q : String) :
    List (String × String) → Option String × ℚ → Option String × ℚ
  | [], best => best
  | (answer, tags) :: rest, best =>
    let score := faqScore ratio q tags
    if best.2 < score then faqLoop ratio q rest (some answer, score)
    else faqLoop ratio q rest best

/-- `search_faq_answer` from `src/main.py`, over an arbitrary list of
`(answer, tags)` rows of the `faq` table in iteration order.
`best_score` starts at `-1e9`, `best_answer` at `None`, and the answer is
returned only when `best_score >= 0.9`. -/
def search_faq_answer (ratio : String → String → ℚ) (faqRows : List (String × String))
    (user_text : String) : Option String :=
  let q := normalize user_text
  match hardRoute q with
  | some a => some a
  | none =>
    let best := faqLoop ratio q faqRows (none, -(1000000000 : ℚ))
    if mkRat 9 10 ≤ best.2 then best.1 else none

/-- Maximum of a list of rationals (`none` for the empty list). -/
def listMaxQ : List ℚ → Option ℚ
  | [] => none
  | a :: l =>
    match listMaxQ l with
    | none => some a
    | some m => some (max a m)

/-- The FAQ selection rule in the specification's words: hard routes take
precedence; otherwise the maximum-scoring row's answer is returned when
the maximum score is at least `0.9`, the first row in iteration order
winning ties, and `none` is returned below the threshold. -/
def faqSpecSelect (ratio : String → String → ℚ) (faqRows : List (String × String))
    (user_text : String) : Option String :=
  let q := normalize user_text
  match hardRoute q with
  | some a => some a
  | none =>
    match listMaxQ (faqRows.map (fun r => faqScore ratio q r.2)) with
    | none => none
    | some m =>
      if mkRat 9 10 ≤ m then
        (faqRows.find? (fun r => faqScore ratio q r.2 == m)).map (fun r => r.1)
      else none

/-! ### Knowledge-base ranking (`kb_search`) -/

/-- One row of the `kb` table. -/
structure KBEntry where
  title : String
  tags : String
  content : String
  lang : String
deriving DecidableEq, Repr

/-- The normalized entry text `kb_search` scores against:
`normalize(title + " " + tags + " " + content[:1500])`. -/
def kbText (it : KBEntry) : String :=
  normalize (it.title ++ " " ++ it.tags ++ " " ++ String.mk (it.content.data.take 1500))

/-- The score `inter * 1.5 + sim` that `kb_search` assigns to one entry
for a normalized query `q`, with `sim = ratio(q, text[:1000])`. -/
def kbScore (ratio : String → String → ℚ) (q : String) (it : KBEntry) : ℚ :=
  let text := kbText it
  (interCount q text : ℚ) * mkRat 3 2 + ratio q (String.mk (text.data.take 1000))

/-- The `scored` list of `kb_search`: each entry paired with its score, in
corpus order. -/
def kbScored (ratio : String → String → ℚ) (kb : List KBEntry) (query : String) :
    List (ℚ × KBEntry) :=
  let q := normalize query
  kb.map (fun it => (kbScore ratio q it, it))

/-- `scored.sort(key=lambda x: x[0], reverse=True)`: a stable descending
sort on the score, modeled by stable insertion sort with the reversed
comparison. -/
def kbRanked (ratio : String → String → ℚ) (kb : List KBEntry) (query : String) :
    List (ℚ × KBEntry) :=
  List.insertionSort (fun a b => b.1 ≤ a.1) (kbScored ratio kb query)

/-- `kb_search` from `src/main.py`: score every entry, sort stably by
descending score, return the entries of the first `topk` pairs. -/
def kb_search (ratio : String → String → ℚ) (kb : List KBEntry) (query : String)
    (topk : Nat) : List KBEntry :=
  ((kbRanked ratio kb query).take topk).map (fun p => p.2)

/-! ### Claim C1: uniqueness of confirmed bookings and conflict behavior -/

/-- The invariant of the `bookings` table claimed by the specification: at
most one row with `status = 'confirmed'` per `(date, time)` pair. -/
def UniqueConfirmed (store : List Booking) : Prop :=
  store.Pairwise (fun b1 b2 =>
    ¬(b1.date = b2.date ∧ b1.time = b2.time ∧
      b1.status = "confirmed" ∧ b2.status = "confirmed"))

/-- Claim C1: when the store already holds a confirmed booking at
`(date, time)`, `create_booking` for that same `(date, time)` returns the
Conflict outcome `(False, conflict message)` and leaves the table exactly
as it was, and `create_booking` preserves the at-most-one-confirmed-per-
slot invariant in every case. -/
theorem c1_create_booking_conflict_and_invariant
    (uid : Nat) (name phone d t topic : String) (now : Nat) (store : List Booking) :
    ((∃ b ∈ store, b.date = d ∧ b.time = t ∧ b.status = "confirmed") →
      create_booking uid name phone d t topic now store = ((false, conflictMsg), store)) ∧
    (UniqueConfirmed store →
      UniqueConfirmed (create_booking uid name phone d t topic now store).2) := by
  constructor
  · rintro ⟨b, hb, hd, ht, _⟩
    have hany : store.any (fun b => b.date == d && b.time == t) = true :=
      List.any_eq_true.mpr ⟨b, hb, by simp [hd, ht]⟩
    simp [create_booking, hany]
  · intro hu
    unfold create_booking
    by_cases hany : store.any (fun b => b.date == d && b.time == t) = true
    · rw [if_pos hany]
      exact hu
    · rw [if_neg hany]
      have hnone : ∀ b ∈ store, ¬(b.date = d ∧ b.time = t) := by
        intro b hb hdt
        exact hany (List.any_eq_true.mpr ⟨b, hb, by simp [hdt.1, hdt.2]⟩)
      simp only [UniqueConfirmed, List.pairwise_append]
      refine ⟨hu, by simp, ?_⟩
      rintro a ha b hb ⟨h1, h2, _, _⟩
      simp only [List.mem_singleton] at hb
      subst hb
      exact hnone a ha ⟨h1, h2⟩

/-- Witness for C1 at a concrete store: a confirmed booking at
`("2025-01-02", "10:00")` makes a second `create_booking` for that slot
fail with the conflict message and leave the store unchanged, and the
uniqueness invariant holds afterwards. -/
theorem c1_witness :
    ((∃ b ∈ [Booking.mk 1 "А Б" "+77000000000" "2025-01-02" "10:00" "тема" "confirmed" 0],
        b.date = "2025-01-02" ∧ b.time = "10:00" ∧ b.status = "confirmed") →
      create_booking 2 "В Г" "+77000000001" "2025-01-02" "10:00" "вопрос" 1
          [Booking.mk 1 "А Б" "+77000000000" "2025-01-02" "10:00" "тема" "confirmed" 0] =
        ((false, conflictMsg),
          [Booking.mk 1 "А Б" "+77000000000" "2025-01-02" "10:00" "тема" "confirmed" 0])) ∧
    create_booking 2 "В Г" "+77000000001" "2025-01-02" "10:00" "вопрос" 1
        [Booking.mk 1 "А Б" "+77000000000" "2025-01-02" "10:00" "тема" "confirmed" 0] =
      ((false, conflictMsg),
        [Booking.mk 1 "А Б" "+77000000000" "2025-01-02" "10:00" "тема" "confirmed" 0]) := by
  have h := c1_create_booking_conflict_and_invariant 2 "В Г" "+77000000001"
    "2025-01-02" "10:00" "вопрос" 1
    [Booking.mk 1 "А Б" "+77000000000" "2025-01-02" "10:00" "тема" "confirmed" 0]
  exact ⟨h.1, h.1 ⟨_, List.mem_singleton_self _, rfl, rfl, rfl⟩⟩

/-! ### Claim C2: the generated slot sequence -/

/-- Counterexample to claim C2 as stated: the program's slot list for any
date also contains the closing-time slot `"18:00"` (the loop runs while
`cur <= end_dt` and the final filter keeps `s <= "18:00"`), so it is not
the claimed sequence ending at `17:30`. -/
theorem c2_counterexample :
    "18:00" ∈ time_slots_for_date "2025-01-01" ∧
      time_slots_for_date "2025-01-01" ≠ specSlots := by
  rw [time_slots_eval]
  decide

/-- Claim C2 as amended: for every date the generated slot sequence is
exactly `10:00, 10:30, …, 12:30, 14:00, …, 17:30, 18:00` — chronological,
stepping by 30 minutes from the 10:00 opening, excluding the two slots
whose start lies in the 13:00–14:00 lunch interval, and additionally
containing the `18:00` closing-time slot. -/
theorem c2_amended_slot_sequence (d : String) :
    time_slots_for_date d = generatedSlots :=
  time_slots_eval d

/-! ### Claim C3: the EnteringName validation -/

/-- Counterexample to claim C3 as stated: the single-token input
`"Ivanov"` (6 characters, 1 whitespace-separated token) is accepted by
`fsm_enter_name` — the state advances to `entering_phone` and the name is
stored — although the claim requires at least two tokens. -/
theorem c3_counterexample :
    fsm_enter_name "Ivanov" emptySession =
      (some BState.entering_phone, { emptySession with full_name := some "Ivanov" }) ∧
    (pyTokens "Ivanov").length = 1 := by
  constructor
  · decide
  · decide

/-- Claim C3 as amended: in the booking FSM's `entering_name` state a text
input is accepted (state advances to `entering_phone`, stripped name
stored) if and only if the stripped text has at least 5 characters; the
two-token requirement is not checked there (it exists only in the
onboarding handler `ob_enter_name`).  A too-short input leaves state and
data unchanged. -/
theorem c3_amended_enter_name (msg : String) (data : Session) :
    (5 ≤ (pyStrip msg).length →
      fsm_enter_name msg data =
        (some BState.entering_phone, { data with full_name := some (pyStrip msg) })) ∧
    ((pyStrip msg).length < 5 →
      fsm_enter_name msg data = (some BState.entering_name, data)) := by
  constructor
  · intro h
    simp [fsm_enter_name, Nat.not_lt.mpr h]
  · intro h
    simp [fsm_enter_name, h]

/-- Witness for C3 as amended: `"Иванов Иван"` (11 characters) is
accepted with the name stored; `"аб"` (2 characters) is rejected leaving
state and data unchanged. -/
theorem c3_witness :
    fsm_enter_name "Иванов Иван" emptySession =
      (some BState.entering_phone, { emptySession with full_name := some "Иванов Иван" }) ∧
    fsm_enter_name "аб" emptySession = (some BState.entering_name, emptySession) :=
  ⟨(c3_amended_enter_name "Иванов Иван" emptySession).1 (by decide),
   (c3_amended_enter_name "аб" emptySession).2 (by decide)⟩

/-! ### Claim C7: invalid input leaves state and data unchanged -/

/-- Claim C7: in each text-consuming non-terminal state, an input failing
that state's validation (name shorter than 5 after stripping, phone not
matching the optional-plus 10–15-digit pattern after cleaning, topic
shorter than 3 after stripping, a confirm reply that is neither
affirmative nor negative) leaves the FSM state unchanged and every
session field unchanged (and, for `confirm`, the store unchanged). -/
theorem c7_invalid_input_is_a_no_op (msg : String) (data : Session)
    (store : List Booking) (uid now : Nat) :
    ((pyStrip msg).length < 5 →
      fsm_enter_name msg data = (some BState.entering_name, data)) ∧
    (phoneMatch (pyPhoneClean msg) = false →
      fsm_enter_phone msg data = (some BState.entering_phone, data)) ∧
    ((pyStrip msg).length < 3 →
      fsm_enter_topic msg data = (some BState.entering_topic, data)) ∧
    (pyLower (pyStrip msg) ∉ yesWords → pyLower (pyStrip msg) ∉ noWords →
      fsm_confirm msg data store uid now = (some BState.confirm, data, store)) := by
  refine ⟨?_, ?_, ?_, ?_⟩
  · intro h; simp [fsm_enter_name, h]
  · intro h; simp [fsm_enter_phone, h]
  · intro h; simp [fsm_enter_topic, h]
  · intro hy hn; simp [fsm_confirm, hy, hn]

/-- Witness for C7 at the concrete input `"хм"`: it fails all four
validations, and each handler leaves the state, the session data, and the
store untouched. -/
theorem c7_witness :
    fsm_enter_name "хм" emptySession = (some BState.entering_name, emptySession) ∧
    fsm_enter_phone "хм" emptySession = (some BState.entering_phone, emptySession) ∧
    fsm_enter_topic "хм" emptySession = (some BState.entering_topic, emptySession) ∧
    fsm_confirm "хм" emptySession [] 1 0 = (some BState.confirm, emptySession, []) := by
  have h := c7_invalid_input_is_a_no_op "хм" emptySession [] 1 0
  exact ⟨h.1 (by decide), h.2.1 (by decide), h.2.2.1 (by decide),
    h.2.2.2 (by decide) (by decide)⟩

/-! ### Claim C8: cancellation semantics -/

/-- Claim C8: `cancel_booking` returns `True` exactly when a row with that
owner, date and time existed (all such rows being removed), and returns
`False` with the store completely unchanged when no such row exists. -/
theorem c8_cancel_booking_not_found_is_no_op
    (uid : Nat) (d t : String) (store : List Booking) :
    ((cancel_booking uid d t store).1 = true ↔
      ∃ b ∈ store, b.user_id = uid ∧ b.date = d ∧ b.time = t) ∧
    ((cancel_booking uid d t store).1 = false →
      (cancel_booking uid d t store).2 = store) ∧
    (∀ b, b ∈ (cancel_booking uid d t store).2 ↔
      b ∈ store ∧ ¬(b.user_id = uid ∧ b.date = d ∧ b.time = t)) := by
  set p := fun b : Booking => !(b.user_id == uid && b.date == d && b.time == t) with hp
  refine ⟨?_, ?_, ?_⟩
  · simp only [cancel_booking, decide_eq_true_eq]
    constructor
    · intro hlt
      by_contra hc
      push_neg at hc
      have hall : ∀ b ∈ store, p b = true := by
        intro b hb
        have hbc := hc b hb
        by_cases h1 : b.user_id = uid
        · by_cases h2 : b.date = d
          · by_cases h3 : b.time = t
            · exact absurd h3 (hbc h1 h2)
            · simp [hp, h1, h2, h3]
          · simp [hp, h1, h2]
        · simp [hp, h1]
      rw [List.filter_eq_self.mpr hall] at hlt
      omega
    · rintro ⟨b, hb, h1, h2, h3⟩
      have hmem : b ∉ store.filter p := by
        intro hmem
        have := (List.mem_filter.mp hmem).2
        simp [hp, h1, h2, h3] at this
      have hsub : List.Sublist (store.filter p) store := List.filter_sublist store
      have hle : (store.filter p).length ≤ store.length := hsub.length_le
      rcases Nat.lt_or_ge (store.filter p).length store.length with h | h
      · exact h
      · exfalso
        have : store.filter p = store := hsub.eq_of_length_le h
        rw [this] at hmem
        exact hmem hb
  · intro hfalse
    simp only [cancel_booking, decide_eq_false_iff_not, Nat.not_lt] at hfalse ⊢
    exact (List.filter_sublist store).eq_of_length_le hfalse
  · intro b
    simp only [cancel_booking, List.mem_filter, hp]
    constructor
    · rintro ⟨hb, hpb⟩
      refine ⟨hb, ?_⟩
      rintro ⟨h1, h2, h3⟩
      simp [h1, h2, h3] at hpb
    · rintro ⟨hb, hnot⟩
      refine ⟨hb, ?_⟩
      by_cases h1 : b.user_id = uid
      · by_cases h2 : b.date = d
        · by_cases h3 : b.time = t
          · exact absurd ⟨h1, h2, h3⟩ hnot
          · simp [h1, h2, h3]
        · simp [h1, h2]
      · simp [h1]

/-- Witness for C8: cancelling an absent booking in a one-row store
reports `False` and changes nothing; the membership characterization holds
at that row. -/
theorem c8_witness :
    ((cancel_booking 2 "2025-01-02" "10:00"
        [Booking.mk 1 "А Б" "+77000000000" "2025-01-02" "10:00" "тема" "confirmed" 0]).1 = false →
      (cancel_booking 2 "2025-01-02" "10:00"
        [Booking.mk 1 "А Б" "+77000000000" "2025-01-02" "10:00" "тема" "confirmed" 0]).2 =
        [Booking.mk 1 "А Б" "+77000000000" "2025-01-02" "10:00" "тема" "confirmed" 0]) ∧
    (cancel_booking 2 "2025-01-02" "10:00"
        [Booking.mk 1 "А Б" "+77000000000" "2025-01-02" "10:00" "тема" "confirmed" 0]).2 =
      [Booking.mk 1 "А Б" "+77000000000" "2025-01-02" "10:00" "тема" "confirmed" 0] := by
  have h := c8_cancel_booking_not_found_is_no_op 2 "2025-01-02" "10:00"
    [Booking.mk 1 "А Б" "+77000000000" "2025-01-02" "10:00" "тема" "confirmed" 0]
  exact ⟨h.2.1, h.2.1 (by decide)⟩

/-! ### Claim C4: the conflict rewind of `fsm_confirm` -/

/-- A fully collected session about to be confirmed. -/
def c4Session : Session :=
  { date := some "2025-01-02", time := some "10:00",
    full_name := some "Иванов Иван", phone := some "+77001234567",
    topic := some "Поступление" }

/-- A store in which slot `("2025-01-02", "10:00")` is already taken. -/
def c4Store : List Booking :=
  [Booking.mk 1 "Петров Петр" "+77000000000" "2025-01-02" "10:00" "тема" "confirmed" 0]

/-- Counterexample to claim C4 as stated: when the user affirms and
`create_booking` reports a conflict, the handler only runs
`set_state(choosing_time)` — the session data is not touched, so the
stale `time` value `"10:00"` is NOT discarded: the whole session,
including `time`, is returned unchanged. -/
theorem c4_counterexample :
    fsm_confirm "Да" c4Session c4Store 2 5 =
      (some BState.choosing_time, c4Session, c4Store) ∧
    (fsm_confirm "Да" c4Session c4Store 2 5).2.1.time = some "10:00" := by
  constructor
  · decide
  · decide

/-- Claim C4 as amended: when the user affirms in the `confirm` state and
`create_booking` returns Conflict, the state machine transitions back to
`choosing_time` for the same date, and the session data — the previously
collected `full_name`, `phone` and `topic` AND ALSO the stale `time` —
is left entirely unchanged (nothing is discarded), as is the store. -/
theorem c4_amended_conflict_rewind (msg : String) (data : Session)
    (store : List Booking) (uid now : Nat)
    (hy : pyLower (pyStrip msg) ∈ yesWords)
    (hconf : ∃ b ∈ store, b.date = data.date.getD "" ∧ b.time = data.time.getD "") :
    fsm_confirm msg data store uid now = (some BState.choosing_time, data, store) := by
  obtain ⟨b, hb, h1, h2⟩ := hconf
  have hany : store.any
      (fun b => b.date == data.date.getD "" && b.time == data.time.getD "") = true :=
    List.any_eq_true.mpr ⟨b, hb, by simp [h1, h2]⟩
  simp [fsm_confirm, create_booking, hany, hy]

/-- Witness for C4 as amended at the concrete input of the
counterexample. -/
theorem c4_witness :
    pyLower (pyStrip "Да") ∈ yesWords ∧
    fsm_confirm "Да" c4Session c4Store 2 5 =
      (some BState.choosing_time, c4Session, c4Store) :=
  ⟨by decide, c4_amended_conflict_rewind "Да" c4Session c4Store 2 5 (by decide) (by decide)⟩

/-! ### Claim C6: availability subtracts confirmed bookings -/

/-- Parse an `"HH:MM"` slot string back to minutes since midnight (used
only to state the business-hours property). -/
def hmVal (s : String) : Nat :=
  match s.data with
  | [h1, h2, ':', m1, m2] =>
    ((h1.toNat - 48) * 10 + (h2.toNat - 48)) * 60 + ((m1.toNat - 48) * 10 + (m2.toNat - 48))
  | _ => 0

/-- Does a slot string lie within the configured business hours
`[DAY_START, DAY_END]`? -/
def withinHours (s : String) : Bool :=
  decide (DAY_START ≤ hmVal s) && decide (hmVal s ≤ DAY_END)

/-- Does a slot string start inside the lunch interval
`[LUNCH_START, LUNCH_END)`? -/
def inLunchInterval (s : String) : Bool :=
  decide (LUNCH_START ≤ hmVal s) && decide (hmVal s < LUNCH_END)

/-- Claim C6: `available_slots` is exactly the slot-calendar output minus
the times of confirmed bookings for that date (so it never contains a
time with a confirmed booking), and every slot it returns lies within
business hours and outside the lunch interval. -/
theorem c6_available_slots_subtracts_confirmed (d : String) (store : List Booking) :
    (∀ s, s ∈ available_slots d store ↔
      (s ∈ time_slots_for_date d ∧
        ¬ ∃ b ∈ store, b.date = d ∧ b.status = "confirmed" ∧ b.time = s)) ∧
    (available_slots d store).all (fun s => withinHours s && !inLunchInterval s) = true := by
  constructor
  · intro s
    rw [available_slots, List.mem_filter]
    constructor
    · rintro ⟨hmem, hb⟩
      refine ⟨hmem, ?_⟩
      rintro ⟨b, hbs, h1, h2, h3⟩
      have hany : store.any
          (fun b => b.date == d && b.status == "confirmed" && b.time == s) = true :=
        List.any_eq_true.mpr ⟨b, hbs, by simp [h1, h2, h3]⟩
      rw [hany] at hb
      exact absurd hb (by decide)
    · rintro ⟨hmem, hno⟩
      refine ⟨hmem, ?_⟩
      by_cases hany : store.any
          (fun b => b.date == d && b.status == "confirmed" && b.time == s) = true
      · exfalso
        obtain ⟨b, hbs, hbp⟩ := List.any_eq_true.mp hany
        simp only [Bool.and_eq_true, beq_iff_eq] at hbp
        exact hno ⟨b, hbs, hbp.1.1, hbp.1.2, hbp.2⟩
      · rw [Bool.not_eq_true] at hany
        rw [hany]
        rfl
  · have hall : ∀ s ∈ generatedSlots, (withinHours s && !inLunchInterval s) = true := by
      decide
    rw [List.all_eq_true]
    intro s hs
    have hsub : List.Sublist (available_slots d store) (time_slots_for_date d) :=
      List.filter_sublist _
    have hmem : s ∈ generatedSlots := by
      rw [← time_slots_eval d]
      exact hsub.subset hs
    exact hall s hmem

/-- A store with one confirmed booking, for the C6 witness. -/
def c6Store : List Booking :=
  [Booking.mk 3 "Сидоров Иван" "+77000000002" "2025-01-02" "10:00" "тема" "confirmed" 0]

/-- Witness for C6 at a concrete store: with `("2025-01-02", "10:00")`
confirmed, `"10:30"` remains available and `"10:00"` is not offered. -/
theorem c6_witness :
    "10:30" ∈ available_slots "2025-01-02" c6Store ∧
    "10:00" ∉ available_slots "2025-01-02" c6Store := by
  have h := c6_available_slots_subtracts_confirmed "2025-01-02" c6Store
  constructor
  · exact (h.1 "10:30").mpr ⟨by rw [time_slots_eval]; decide, by decide⟩
  · intro hmem
    exact ((h.1 "10:00").mp hmem).2 (by decide)

/-! ### Claim C5: FAQ routing, scoring, threshold and tie-break -/

theorem listMaxQ_eq_none {l : List ℚ} : listMaxQ l = none ↔ l = [] := by
  cases l with
  | nil => simp [listMaxQ]
  | cons a l =>
    simp only [listMaxQ]
    cases listMaxQ l <;> simp

theorem listMaxQ_le {l : List ℚ} {m : ℚ} (h : listMaxQ l = some m) :
    ∀ x ∈ l, x ≤ m := by
  induction l generalizing m with
  | nil => simp [listMaxQ] at h
  | cons a l ih =>
    intro x hx
    rw [listMaxQ] at h
    cases hml : listMaxQ l with
    | none =>
      rw [hml] at h
      simp only [Option.some.injEq] at h
      have : l = [] := listMaxQ_eq_none.mp hml
      subst this
      simp only [List.mem_singleton] at hx
      rw [hx, h]
    | some m' =>
      rw [hml] at h
      simp only [Option.some.injEq] at h
      rcases List.mem_cons.mp hx with hxa | hxl
      · rw [hxa, ← h]
        exact le_max_left a m'
      · exact le_trans (ih hml x hxl) (h ▸ le_max_right a m')

theorem faqLoop_no_update (ratio : String → String → ℚ) (q : String) :
    ∀ (rows : List (String × String)) (bA : Option String) (bS : ℚ),
      (∀ r ∈ rows, faqScore ratio q r.2 ≤ bS) →
      faqLoop ratio q rows (bA, bS) = (bA, bS) := by
  intro rows
  induction rows with
  | nil => intro bA bS _; rfl
  | cons r rest ih =>
    intro bA bS hle
    obtain ⟨answer, tags⟩ := r
    have hs : faqScore ratio q tags ≤ bS := hle (answer, tags) (List.mem_cons_self _ _)
    rw [faqLoop, if_neg (not_lt.mpr hs)]
    exact ih bA bS (fun r hr => hle r (List.mem_cons_of_mem _ hr))

theorem faqLoop_finds_first_max (ratio : String → String → ℚ) (q : String) :
    ∀ (rows : List (String × String)) (bA : Option String) (bS m : ℚ),
      listMaxQ (rows.map (fun r => faqScore ratio q r.2)) = some m → bS < m →
      ∃ r0, rows.find? (fun r => faqScore ratio q r.2 == m) = some r0 ∧
        faqLoop ratio q rows (bA, bS) = (some r0.1, m) := by
  intro rows
  induction rows with
  | nil => intro bA bS m h _; simp [listMaxQ] at h
  | cons r rest ih =>
    intro bA bS m hmax hlt
    obtain ⟨answer, tags⟩ := r
    rw [List.map_cons, listMaxQ] at hmax
    cases hml : listMaxQ (rest.map (fun r => faqScore ratio q r.2)) with
    | none =>
      rw [hml] at hmax
      simp only [Option.some.injEq] at hmax
      have hrest : rest = [] := by
        have := listMaxQ_eq_none.mp hml
        simpa using this
      subst hrest
      refine ⟨(answer, tags), ?_, ?_⟩
      · exact List.find?_cons_of_pos _ (by simp [hmax])
      · rw [faqLoop, if_pos (hmax ▸ hlt)]
        rw [hmax]
        rfl
    | some m' =>
      rw [hml] at hmax
      simp only [Option.some.injEq] at hmax
      by_cases hsm : faqScore ratio q tags = m
      · refine ⟨(answer, tags), ?_, ?_⟩
        · exact List.find?_cons_of_pos _ (by simp [hsm])
        · rw [faqLoop, if_pos (hsm ▸ hlt)]
          rw [hsm]
          exact faqLoop_no_update ratio q rest _ m
            (fun r hr => le_trans
              (listMaxQ_le hml _ (List.mem_map_of_mem _ hr))
              (hmax ▸ le_max_right _ m'))
      · have hm' : m = m' := by
          rcases max_choice (faqScore ratio q tags) m' with hc | hc
          · rw [hmax] at hc
            exact absurd hc.symm hsm
          · rw [← hmax, hc]
        have hslt : faqScore ratio q tags < m := by
          rcases lt_or_eq_of_le (hmax ▸ le_max_left (faqScore ratio q tags) m') with h | h
          · exact h
          · exact absurd h hsm
        have hmlm : listMaxQ (rest.map (fun r => faqScore ratio q r.2)) = some m := by
          rw [hml, hm']
        by_cases hbs : bS < faqScore ratio q tags
        · obtain ⟨r0, hfind, hloop⟩ := ih (some answer) (faqScore ratio q tags) m hmlm hslt
          exact ⟨r0, by rw [List.find?_cons_of_neg _ (by simp [hsm])]; exact hfind,
            by rw [faqLoop, if_pos hbs]; exact hloop⟩
        · obtain ⟨r0, hfind, hloop⟩ := ih bA bS m hmlm hlt
          exact ⟨r0, by rw [List.find?_cons_of_neg _ (by simp [hsm])]; exact hfind,
            by rw [faqLoop, if_neg hbs]; exact hloop⟩

/-- Claim C5: `search_faq_answer` first tests the normalized query against
the fixed hard-route patterns and returns that pattern's canned answer
when one matches; otherwise it scores every FAQ row as
`2.0 × |shared tokens| + ratio`, returns the answer of the
maximum-scoring row when the maximum is at least `0.9` (the first row in
iteration order winning ties), and returns `none` below the threshold —
i.e. it coincides with `faqSpecSelect`, the specification's selection
rule.  (The difflib similarity is an abstract nonnegative `ratio`.) -/
theorem c5_search_faq_routing_and_threshold (ratio : String → String → ℚ)
    (faqRows : List (String × String)) (user_text : String)
    (hr : ∀ a b, 0 ≤ ratio a b) :
    search_faq_answer ratio faqRows user_text = faqSpecSelect ratio faqRows user_text := by
  rw [search_faq_answer, faqSpecSelect]
  cases hhr : hardRoute (normalize user_text) with
  | some a => rfl
  | none =>
    simp only []
    cases hmax : listMaxQ (faqRows.map (fun r => faqScore ratio (normalize user_text) r.2)) with
    | none =>
      have : faqRows = [] := by
        have := listMaxQ_eq_none.mp hmax
        simpa using this
      subst this
      rw [faqLoop]
      rw [if_neg (by decide : ¬ (mkRat 9 10 ≤ -(1000000000 : ℚ)))]
    | some m =>
      have hm0 : 0 ≤ m := by
        have hmem := listMaxQ_le hmax
        have hne : faqRows ≠ [] := by
          rintro rfl
          simp [listMaxQ] at hmax
        obtain ⟨r1, hr1⟩ := List.exists_mem_of_ne_nil faqRows hne
        have h1 : faqScore ratio (normalize user_text) r1.2 ≤ m :=
          hmem _ (List.mem_map_of_mem _ hr1)
        refine le_trans ?_ h1
        unfold faqScore
        have : (0:ℚ) ≤ (interCount (normalize user_text)
            (normalize r1.2) : ℚ) * 2 :=
          mul_nonneg (Nat.cast_nonneg _) (by norm_num)
        exact add_nonneg this (hr _ _)
      have hlt : -(1000000000 : ℚ) < m :=
        lt_of_lt_of_le (by decide : -(1000000000 : ℚ) < 0) hm0
      obtain ⟨r0, hfind, hloop⟩ :=
        faqLoop_finds_first_max ratio (normalize user_text) faqRows none
          (-(1000000000 : ℚ)) m hmax hlt
      rw [hloop]
      dsimp only
      rw [hfind]
      by_cases hth : mkRat 9 10 ≤ m
      · rw [if_pos hth, if_pos hth]
        rfl
      · rw [if_neg hth, if_neg hth]

section RatEval

attribute [local semireducible] Rat.add Rat.mul

set_option maxRecDepth 20000

/-- Witness for C5 on a concrete corpus: with the zero similarity ratio
(which is nonnegative, as difflib's ratio always is), the query
`"документы"` shares one token with the single FAQ row's tags, scores
`2.0 ≥ 0.9`, and both the source function and the specification's rule
return that row's answer. -/
theorem c5_witness :
    (∀ a b : String, (0:ℚ) ≤ (fun (_ _ : String) => (0:ℚ)) a b) ∧
    search_faq_answer (fun _ _ => 0)
        [("Полный перечень документов: /docs", "документы поступление список")]
        "документы" =
      faqSpecSelect (fun _ _ => 0)
        [("Полный перечень документов: /docs", "документы поступление список")]
        "документы" ∧
    search_faq_answer (fun _ _ => 0)
        [("Полный перечень документов: /docs", "документы поступление список")]
        "документы" = some "Полный перечень документов: /docs" := by
  refine ⟨fun a b => le_refl 0, ?_, ?_⟩
  · exact c5_search_faq_routing_and_threshold (fun _ _ => 0)
      [("Полный перечень документов: /docs", "документы поступление список")]
      "документы" (fun a b => le_refl 0)
  · exact (c5_search_faq_routing_and_threshold (fun _ _ => 0)
      [("Полный перечень документов: /docs", "документы поступление список")]
      "документы" (fun a b => le_refl 0)).trans (by decide)

end RatEval

/-! ### Claim C9: knowledge ranking returns the stably sorted top k -/

instance : IsTotal (ℚ × KBEntry) (fun a b => b.1 ≤ a.1) :=
  ⟨fun a b => le_total b.1 a.1⟩

instance : IsTrans (ℚ × KBEntry) (fun a b => b.1 ≤ a.1) :=
  ⟨fun _ _ _ hab hbc => le_trans hbc hab⟩

theorem kbRanked_mem_score (ratio : String → String → ℚ) (kb : List KBEntry)
    (query : String) (p : ℚ × KBEntry) (hp : p ∈ kbRanked ratio kb query) :
    p.1 = kbScore ratio (normalize query) p.2 := by
  rw [kbRanked, List.mem_insertionSort, kbScored, List.mem_map] at hp
  obtain ⟨it, _, rfl⟩ := hp
  rfl

/-- Claim C9: `kb_search` returns `min topk |corpus|` entries — so at most
`topk`, and exactly `topk` whenever the corpus has at least that many,
with no minimum-score threshold — sorted by descending score, and the
stable sort keeps any equal-score group of scored entries in its original
corpus order (it stays a sublist of the ranked list). -/
theorem c9_kb_search_topk_sorted_stable (ratio : String → String → ℚ)
    (kb : List KBEntry) (query : String) (topk : Nat) :
    (kb_search ratio kb query topk).length = min topk kb.length ∧
    ((kb_search ratio kb query topk).map
      (kbScore ratio (normalize query))).Pairwise (· ≥ ·) ∧
    (∀ sub : List (ℚ × KBEntry), List.Sublist sub (kbScored ratio kb query) →
      sub.Pairwise (fun a b => a.1 = b.1) →
      List.Sublist sub (kbRanked ratio kb query)) := by
  refine ⟨?_, ?_, ?_⟩
  · simp [kb_search, kbRanked, kbScored, List.length_take, List.length_insertionSort]
  · have hsorted : List.Pairwise (fun a b : ℚ × KBEntry => b.1 ≤ a.1)
        (kbRanked ratio kb query) :=
      List.sorted_insertionSort _ _
    have htake : List.Pairwise (fun a b : ℚ × KBEntry => b.1 ≤ a.1)
        ((kbRanked ratio kb query).take topk) :=
      hsorted.sublist (List.take_sublist _ _)
    rw [kb_search, List.map_map, List.pairwise_map]
    refine htake.imp_of_mem ?_
    intro a b ha hb hle
    have ha' : a.1 = kbScore ratio (normalize query) a.2 :=
      kbRanked_mem_score ratio kb query a ((List.take_sublist _ _).subset ha)
    have hb' : b.1 = kbScore ratio (normalize query) b.2 :=
      kbRanked_mem_score ratio kb query b ((List.take_sublist _ _).subset hb)
    simpa [Function.comp, ← ha', ← hb'] using hle
  · intro sub hsub hpair
    exact List.sublist_insertionSort
      (hpair.imp (fun h => le_of_eq h.symm)) hsub

section RatEvalKB

attribute [local semireducible] Rat.add Rat.mul

set_option maxRecDepth 20000

/-- A two-entry corpus for the C9 witness. -/
def c9KB : List KBEntry :=
  [KBEntry.mk "Туризм" "туризм" "" "ru", KBEntry.mk "Маркетинг" "маркетинг" "" "ru"]

/-- Witness for C9: with the zero similarity ratio and `topk = 1`, the
search over the two-entry corpus returns exactly one entry, and the
(trivially equal-score) singleton group of the lower-scored entry stays a
sublist of the ranked list. -/
theorem c9_witness :
    (kb_search (fun _ _ => 0) c9KB "туризм" 1).length = min 1 c9KB.length ∧
    List.Sublist [((0:ℚ), KBEntry.mk "Маркетинг" "маркетинг" "" "ru")]
      (kbRanked (fun _ _ => 0) c9KB "туризм") := by
  have h := c9_kb_search_topk_sorted_stable (fun _ _ => 0) c9KB "туризм" 1
  exact ⟨h.1, h.2.2 _ (by decide) (by decide)⟩

end RatEvalKB

/-! ### Claim C10: idempotence of `normalize` -/

/-- Characters fixed by every per-character stage of `normalize`:
lowercasing, `ё`-folding and the whitelist substitution. -/
def keepChar (c : Char) : Bool :=
  (pyLowerChar c == c) && (foldYo c == c) && allowedChar c

theorem lowerPairs_vals_not_keys :
    ∀ p ∈ lowerPairs, lowerPairs.find? (fun q => q.1 == p.2) = none := by
  decide

theorem pyLowerChar_idem (c : Char) :
    pyLowerChar (pyLowerChar c) = pyLowerChar c := by
  cases hf : lowerPairs.find? (fun p => p.1 == c) with
  | none => simp [pyLowerChar, hf]
  | some p =>
    simp [pyLowerChar, hf,
      lowerPairs_vals_not_keys p (List.mem_of_find?_eq_some hf)]

theorem foldYo_idem (c : Char) : foldYo (foldYo c) = foldYo c := by
  by_cases h : c = 'ё'
  · subst h; decide
  · simp [foldYo, h]

theorem pyLowerChar_foldYo (c : Char) :
    pyLowerChar (foldYo (pyLowerChar c)) = foldYo (pyLowerChar c) := by
  by_cases h : pyLowerChar c = 'ё'
  · rw [show foldYo (pyLowerChar c) = 'е' by simp [foldYo, h]]
    decide
  · rw [show foldYo (pyLowerChar c) = pyLowerChar c by simp [foldYo, h]]
    exact pyLowerChar_idem c

theorem stage_keepChar (c : Char) :
    keepChar (whitelist (foldYo (pyLowerChar c))) = true := by
  by_cases hw : allowedChar (foldYo (pyLowerChar c)) = true
  · rw [show whitelist (foldYo (pyLowerChar c)) = foldYo (pyLowerChar c) by
      simp [whitelist, hw]]
    simp only [keepChar, Bool.and_eq_true, beq_iff_eq]
    exact ⟨⟨pyLowerChar_foldYo c, foldYo_idem _⟩, hw⟩
  · rw [show whitelist (foldYo (pyLowerChar c)) = ' ' by simp [whitelist, hw]]
    decide

theorem mem_collapseWsAux {c : Char} :
    ∀ (l : List Char) (b : Bool), c ∈ collapseWsAux l b → c ∈ l ∨ c = ' ' := by
  intro l
  induction l with
  | nil => intro b h; simp [collapseWsAux] at h
  | cons a rest ih =>
    intro b h
    rw [collapseWsAux] at h
    by_cases hws : pyIsWs a = true
    · rw [if_pos hws] at h
      cases b with
      | true =>
        rcases ih true h with h' | h'
        · exact Or.inl (List.mem_cons_of_mem _ h')
        · exact Or.inr h'
      | false =>
        rw [if_neg (by decide : ¬((false : Bool) = true))] at h
        rcases List.mem_cons.mp h with h' | h'
        · exact Or.inr h'
        · rcases ih true h' with h'' | h''
          · exact Or.inl (List.mem_cons_of_mem _ h'')
          · exact Or.inr h''
    · rw [if_neg hws] at h
      rcases List.mem_cons.mp h with h' | h'
      · exact Or.inl (h' ▸ List.mem_cons_self _ _)
      · rcases ih false h' with h'' | h''
        · exact Or.inl (List.mem_cons_of_mem _ h'')
        · exact Or.inr h''

theorem mem_dropTrailWs {c : Char} :
    ∀ l : List Char, c ∈ dropTrailWs l → c ∈ l := by
  intro l
  induction l with
  | nil => intro h; simp [dropTrailWs] at h
  | cons a rest ih =>
    intro h
    rw [dropTrailWs] at h
    by_cases hc : (dropTrailWs rest = [] && pyIsWs a) = true
    · rw [if_pos hc] at h
      simp at h
    · rw [if_neg hc] at h
      rcases List.mem_cons.mp h with h' | h'
      · exact h' ▸ List.mem_cons_self _ _
      · exact List.mem_cons_of_mem _ (ih h')

/-- The pairwise-adjacent relation of a collapsed string: no two adjacent
whitespace characters. -/
def noWsPair (c1 c2 : Char) : Prop :=
  pyIsWs c1 = false ∨ pyIsWs c2 = false

theorem collapseWsAux_head :
    ∀ (l : List Char) (c : Char),
      (collapseWsAux l true).head? = some c → pyIsWs c = false := by
  intro l
  induction l with
  | nil => intro c h; simp [collapseWsAux] at h
  | cons a rest ih =>
    intro c h
    rw [collapseWsAux] at h
    by_cases hws : pyIsWs a = true
    · rw [if_pos hws, if_pos rfl] at h
      exact ih c h
    · rw [if_neg hws] at h
      simp only [List.head?_cons, Option.some.injEq] at h
      rw [← h]
      exact Bool.not_eq_true _ ▸ hws

theorem collapseWsAux_chain :
    ∀ (l : List Char) (b : Bool), List.Chain' noWsPair (collapseWsAux l b) := by
  intro l
  induction l with
  | nil => intro b; simp [collapseWsAux]
  | cons a rest ih =>
    intro b
    rw [collapseWsAux]
    by_cases hws : pyIsWs a = true
    · rw [if_pos hws]
      cases b with
      | true => exact ih true
      | false =>
        rw [if_neg (by decide : ¬((false : Bool) = true))]
        rw [List.chain'_cons']
        refine ⟨?_, ih true⟩
        intro c2 hc2
        exact Or.inr (collapseWsAux_head rest c2 hc2)
    · rw [if_neg hws]
      rw [List.chain'_cons']
      refine ⟨?_, ih false⟩
      intro c2 _
      exact Or.inl (Bool.not_eq_true _ ▸ hws)

theorem collapseWsAux_space :
    ∀ (l : List Char) (b : Bool) (c : Char),
      c ∈ collapseWsAux l b → pyIsWs c = true → c = ' ' := by
  intro l
  induction l with
  | nil => intro b c h; simp [collapseWsAux] at h
  | cons a rest ih =>
    intro b c h hc
    rw [collapseWsAux] at h
    by_cases hws : pyIsWs a = true
    · rw [if_pos hws] at h
      cases b with
      | true => exact ih true c h hc
      | false =>
        rw [if_neg (by decide : ¬((false : Bool) = true))] at h
        rcases List.mem_cons.mp h with h' | h'
        · exact h'
        · exact ih true c h' hc
    · rw [if_neg hws] at h
      rcases List.mem_cons.mp h with h' | h'
      · rw [h'] at hc
        exact absurd hc (Bool.not_eq_true _ ▸ hws)
      · exact ih false c h' hc

theorem dropTrailWs_isPrefixOfSelf : ∀ l : List Char, dropTrailWs l <+: l := by
  intro l
  induction l with
  | nil => exact List.nil_prefix
  | cons a rest ih =>
    rw [dropTrailWs]
    by_cases hc : (dropTrailWs rest = [] && pyIsWs a) = true
    · rw [if_pos hc]
      exact List.nil_prefix
    · rw [if_neg hc]
      obtain ⟨t, ht⟩ := ih
      exact ⟨t, by rw [List.cons_append, ht]⟩

theorem dropTrailWs_last :
    ∀ (l : List Char) (c : Char),
      (dropTrailWs l).getLast? = some c → pyIsWs c = false := by
  intro l
  induction l with
  | nil => intro c h; simp [dropTrailWs] at h
  | cons a rest ih =>
    intro c h
    rw [dropTrailWs] at h
    by_cases hc : (dropTrailWs rest = [] && pyIsWs a) = true
    · rw [if_pos hc] at h
      simp at h
    · rw [if_neg hc] at h
      cases hr : dropTrailWs rest with
      | nil =>
        rw [hr] at h
        simp only [List.getLast?_singleton, Option.some.injEq] at h
        rw [← h]
        rw [hr] at hc
        simpa using hc
      | cons d ds =>
        rw [hr] at h
        rw [show (a :: d :: ds).getLast? = (d :: ds).getLast? from
          List.getLast?_cons_cons] at h
        rw [← hr] at h
        exact ih c h

theorem collapseWsAux_id :
    ∀ (l : List Char) (b : Bool),
      List.Chain' noWsPair l → (∀ c ∈ l, pyIsWs c = true → c = ' ') →
      (b = true → ∀ c, l.head? = some c → pyIsWs c = false) →
      collapseWsAux l b = l := by
  intro l
  induction l with
  | nil => intro b _ _ _; rfl
  | cons a rest ih =>
    intro b hchain hsp hhead
    rw [collapseWsAux]
    by_cases hws : pyIsWs a = true
    · rw [if_pos hws]
      have ha : a = ' ' := hsp a (List.mem_cons_self _ _) hws
      cases b with
      | true =>
        exact absurd hws (Bool.not_eq_true _ ▸ hhead rfl a rfl)
      | false =>
        rw [if_neg (by decide : ¬((false : Bool) = true))]
        rw [List.chain'_cons'] at hchain
        have hrest : collapseWsAux rest true = rest := by
          refine ih true hchain.2 (fun c hc => hsp c (List.mem_cons_of_mem _ hc)) ?_
          intro _ c hc
          rcases hchain.1 c hc with h' | h'
          · rw [ha] at h'
            exact absurd h' (by decide)
          · exact h'
        rw [hrest, ha]
    · rw [if_neg hws]
      rw [List.chain'_cons'] at hchain
      rw [ih false hchain.2 (fun c hc => hsp c (List.mem_cons_of_mem _ hc))
        (fun hb => absurd hb (by decide))]

theorem dropWhile_id_of_head {l : List Char}
    (h : ∀ c, l.head? = some c → pyIsWs c = false) :
    l.dropWhile pyIsWs = l := by
  cases l with
  | nil => rfl
  | cons a rest =>
    rw [List.dropWhile_cons, if_neg (by rw [h a rfl]; exact Bool.false_ne_true)]

theorem dropTrailWs_id :
    ∀ l : List Char, (∀ c, l.getLast? = some c → pyIsWs c = false) →
      dropTrailWs l = l := by
  intro l
  induction l with
  | nil => intro _; rfl
  | cons a rest ih =>
    intro hlast
    cases hr : rest with
    | nil =>
      subst hr
      have hna : pyIsWs a = false := hlast a rfl
      simp [dropTrailWs, hna]
    | cons d ds =>
      subst hr
      have hrest : dropTrailWs (d :: ds) = d :: ds := by
        refine ih ?_
        intro c hc
        refine hlast c ?_
        rw [show (a :: d :: ds).getLast? = (d :: ds).getLast? from
          List.getLast?_cons_cons]
        exact hc
      rw [dropTrailWs, hrest]
      simp

/-- The `List Char` core of `normalize`. -/
theorem normalize_data (s : String) :
    (normalize s).data =
      dropTrailWs ((collapseWsAux
        (((s.data.map pyLowerChar).map foldYo).map whitelist) false).dropWhile pyIsWs) :=
  rfl

theorem normalize_chars {s : String} {c : Char} (h : c ∈ (normalize s).data) :
    keepChar c = true := by
  rw [normalize_data] at h
  have h1 := mem_dropTrailWs _ h
  have h2 := (List.dropWhile_suffix pyIsWs).sublist.subset h1
  rcases mem_collapseWsAux _ false h2 with h3 | h3
  · simp only [List.mem_map] at h3
    obtain ⟨a, ⟨b, ⟨x, _, rfl⟩, rfl⟩, rfl⟩ := h3
    exact stage_keepChar x
  · rw [h3]
    decide

/-- Claim C10: `normalize` is idempotent — applying the lowercasing,
`ё`-folding, whitelist replacement, whitespace collapsing and stripping a
second time changes nothing. -/
theorem c10_normalize_idempotent (s : String) :
    normalize (normalize s) = normalize s := by
  have hkeep : ∀ c ∈ (normalize s).data, keepChar c = true :=
    fun c hc => normalize_chars hc
  have hplc : (normalize s).data.map pyLowerChar = (normalize s).data := by
    rw [show (normalize s).data.map pyLowerChar = (normalize s).data.map id from
      List.map_congr_left (fun c hc => by
        have := hkeep c hc
        simp only [keepChar, Bool.and_eq_true, beq_iff_eq] at this
        exact this.1.1), List.map_id]
  have hfold : (normalize s).data.map foldYo = (normalize s).data := by
    rw [show (normalize s).data.map foldYo = (normalize s).data.map id from
      List.map_congr_left (fun c hc => by
        have := hkeep c hc
        simp only [keepChar, Bool.and_eq_true, beq_iff_eq] at this
        exact this.1.2), List.map_id]
  have hwl : (normalize s).data.map whitelist = (normalize s).data := by
    rw [show (normalize s).data.map whitelist = (normalize s).data.map id from
      List.map_congr_left (fun c hc => by
        have := hkeep c hc
        simp only [keepChar, Bool.and_eq_true, beq_iff_eq] at this
        simp [whitelist, this.2]), List.map_id]
  -- structural facts about the already-normalized character list
  have hchain : List.Chain' noWsPair (normalize s).data := by
    rw [normalize_data]
    exact List.Chain'.prefix
      ((collapseWsAux_chain _ false).suffix (List.dropWhile_suffix pyIsWs))
      (dropTrailWs_isPrefixOfSelf _)
  have hspace : ∀ c ∈ (normalize s).data, pyIsWs c = true → c = ' ' := by
    intro c hc
    rw [normalize_data] at hc
    exact collapseWsAux_space _ false c
      ((List.dropWhile_suffix pyIsWs).sublist.subset (mem_dropTrailWs _ hc))
  have hhead : ∀ c, (normalize s).data.head? = some c → pyIsWs c = false := by
    intro c hc
    rw [normalize_data] at hc
    obtain ⟨t, ht⟩ := dropTrailWs_isPrefixOfSelf
      ((collapseWsAux (((s.data.map pyLowerChar).map foldYo).map whitelist)
        false).dropWhile pyIsWs)
    rcases hl : dropTrailWs ((collapseWsAux
        (((s.data.map pyLowerChar).map foldYo).map whitelist) false).dropWhile pyIsWs) with
      _ | ⟨d, ds⟩
    · rw [hl] at hc
      simp at hc
    · rw [hl] at hc ht
      simp only [List.head?_cons, Option.some.injEq] at hc
      have hhd : ((collapseWsAux (((s.data.map pyLowerChar).map foldYo).map whitelist)
          false).dropWhile pyIsWs).head? = some d := by
        rw [← ht]
        rfl
      have hd := List.head?_dropWhile_not pyIsWs
        (collapseWsAux (((s.data.map pyLowerChar).map foldYo).map whitelist) false)
      rw [hhd] at hd
      rw [← hc]
      simpa using hd
  have hlast : ∀ c, (normalize s).data.getLast? = some c → pyIsWs c = false := by
    intro c hc
    rw [normalize_data] at hc
    exact dropTrailWs_last _ c hc
  -- assemble
  apply String.ext
  rw [normalize_data (normalize s)]
  rw [show (normalize s).data.map pyLowerChar = (normalize s).data from hplc]
  rw [hfold, hwl]
  rw [collapseWsAux_id _ false hchain hspace (fun hb => absurd hb (by decide))]
  rw [dropWhile_id_of_head hhead]
  exact dropTrailWs_id _ hlast

end CCU
